import Mathlib

/-!
# Verification of the GameOfLife WebGPU repository

Shallow embedding of the three source files:

* `src/simulate.wgsl` — the compute shader updating the cell grid
  (u32 arithmetic modelled as `Nat` with explicit `% 2^32`);
* `src/cell.wgsl`     — the vertex/fragment shaders (f32 arithmetic
  modelled as `ℚ`, exact for the magnitudes the program uses);
* `src/main.ts`       — host-side driver: HSL→RGB colour gradient,
  buffer/bind-group setup, the per-tick clock, draw and dispatch sizes
  (JS `number` arithmetic modelled as `ℚ`).
-/

namespace GameOfLife

/-! ## u32 arithmetic (WGSL `u32` is 32-bit unsigned with wraparound) -/

def U32LIM : Nat := 2 ^ 32

/-- WGSL `a + b` on `u32`. -/
def addU32 (a b : Nat) : Nat := (a + b) % U32LIM

/-- WGSL `a - b` on `u32` (wraps on underflow). -/
def subU32 (a b : Nat) : Nat := (a % U32LIM + (U32LIM - b % U32LIM)) % U32LIM

/-! ## simulate.wgsl

```
fn cellIndex(cell: vec2u) -> u32 {
  return (cell.y % u32(grid.y)) * u32(grid.x) + (cell.x % u32(grid.x));
}
fn cellState(x: u32, y: u32) -> u32 { return cellStateIn[cellIndex(vec2u(x, y))]; }
```
`grid` is a `vec2f` holding `(grid_size, grid_size)`; `u32(grid.x)` is exact
for the integer sizes the program stores, so `W H : Nat` below. A storage
buffer of `u32` is modelled as `Nat → Nat`. -/

def cellIndex (W H x y : Nat) : Nat := (y % H) * W + (x % W)

def cellState (W H : Nat) (bufIn : Nat → Nat) (x y : Nat) : Nat :=
  bufIn (cellIndex W H x y)

/-- The `aliveNeighbors` sum computed by `simulate` for invocation `(x, y)`:
eight `cellState` lookups with `cell.x ± 1`, `cell.y ± 1` in u32 arithmetic,
in the order they appear in the shader. -/
def aliveNeighbors (W H : Nat) (bufIn : Nat → Nat) (x y : Nat) : Nat :=
  cellState W H bufIn (addU32 x 1) y +
  cellState W H bufIn (subU32 x 1) y +
  cellState W H bufIn x (addU32 y 1) +
  cellState W H bufIn x (subU32 y 1) +
  cellState W H bufIn (addU32 x 1) (addU32 y 1) +
  cellState W H bufIn (subU32 x 1) (subU32 y 1) +
  cellState W H bufIn (addU32 x 1) (subU32 y 1) +
  cellState W H bufIn (subU32 x 1) (addU32 y 1)

/-- The value `simulate` stores into `cellStateOut[cellIndex(cell.xy)]`:
`if aliveNeighbors == 2` keep the current state, `else if == 3` write 1,
`else` write 0. -/
def simulateCell (W H : Nat) (bufIn : Nat → Nat) (x y : Nat) : Nat :=
  if aliveNeighbors W H bufIn x y = 2 then bufIn (cellIndex W H x y)
  else if aliveNeighbors W H bufIn x y = 3 then 1
  else 0

/-- The textbook Game of Life rule, stated from the spec's words: a live cell
with 2 or 3 live neighbours stays alive, a dead cell with exactly 3 live
neighbours becomes alive, every other combination is dead. -/
def textbookRule (cur n : Nat) : Nat :=
  if cur = 1 then (if n = 2 ∨ n = 3 then 1 else 0)
  else (if n = 3 then 1 else 0)

end GameOfLife

namespace GameOfLife

/-- C1: The update rule of `simulate` coincides with the textbook Game of Life
rule at every cell whose current state is 0 or 1: the shader's
`2 → keep, 3 → alive, otherwise dead` branching equals
`dead + 3 neighbours → alive; live + 2 or 3 → alive; otherwise dead`. -/
theorem simulate_matches_textbook_rule (W H : Nat) (bufIn : Nat → Nat) (x y : Nat)
    (h : bufIn (cellIndex W H x y) = 0 ∨ bufIn (cellIndex W H x y) = 1) :
    simulateCell W H bufIn x y =
      textbookRule (bufIn (cellIndex W H x y)) (aliveNeighbors W H bufIn x y) := by
  unfold simulateCell textbookRule
  rcases h with h0 | h1
  · rw [h0]
    split_ifs with h2 h3 hc h3' <;> simp_all
  · rw [h1]
    split_ifs with h2 h3 hc h3' <;> simp_all

/-- Witness for C1: a concrete 3×3 all-dead grid at cell (0,0). -/
theorem simulate_matches_textbook_rule_witness :
    simulateCell 3 3 (fun _ => 0) 0 0 =
      textbookRule ((fun _ => 0) (cellIndex 3 3 0 0)) (aliveNeighbors 3 3 (fun _ => 0) 0 0) :=
  simulate_matches_textbook_rule 3 3 (fun _ => 0) 0 0 (Or.inl rfl)

/-! ## Toroidal wrapping (C2)

The spec's mathematical wrap of a neighbour coordinate: `(x+1) mod W` for the
`+1` lookups, `(x+W-1) mod W` for the `-1` lookups. -/

def wrapAdd1 (x W : Nat) : Nat := (x + 1) % W

def wrapSub1 (x W : Nat) : Nat := (x + W - 1) % W

/-- Modelled from the spec: the Moore-neighbourhood live count with both
coordinates wrapped modulo the grid extents, summand order matching the
shader's lookup order. -/
def toroidalAliveNeighbors (W H : Nat) (buf : Nat → Nat) (x y : Nat) : Nat :=
  buf (cellIndex W H (wrapAdd1 x W) y) +
  buf (cellIndex W H (wrapSub1 x W) y) +
  buf (cellIndex W H x (wrapAdd1 y H)) +
  buf (cellIndex W H x (wrapSub1 y H)) +
  buf (cellIndex W H (wrapAdd1 x W) (wrapAdd1 y H)) +
  buf (cellIndex W H (wrapSub1 x W) (wrapSub1 y H)) +
  buf (cellIndex W H (wrapAdd1 x W) (wrapSub1 y H)) +
  buf (cellIndex W H (wrapSub1 x W) (wrapAdd1 y H))

/-- A buffer whose only live cell is at flat index 0, i.e. grid cell (0,0). -/
def singleLive : Nat → Nat := fun i => if i = 0 then 1 else 0

theorem cellIndex_congr (W H a b a' b' : Nat) (ha : a % W = a' % W) (hb : b % H = b' % H) :
    cellIndex W H a b = cellIndex W H a' b' := by
  unfold cellIndex; rw [ha, hb]

theorem addU32_one_mod (x W : Nat) (hx : x < W) (hW : W ≤ U32LIM) :
    addU32 x 1 % W = (x + 1) % W := by
  unfold addU32
  rcases Nat.lt_or_ge (x + 1) U32LIM with h | h
  · rw [Nat.mod_eq_of_lt h]
  · have hx1 : x + 1 = U32LIM := by omega
    have hWeq : W = U32LIM := by omega
    rw [hx1, hWeq]
    simp

theorem subU32_one_mod (x W : Nat) (hx : x < W) (hdvd : U32LIM % W = 0) :
    subU32 x 1 % W = (x + W - 1) % W := by
  have hWpos : 0 < W := by
    rcases Nat.eq_zero_or_pos W with rfl | h
    · simp [U32LIM] at hdvd
    · exact h
  have hWle : W ≤ U32LIM := Nat.le_of_dvd (by norm_num [U32LIM]) (Nat.dvd_of_mod_eq_zero hdvd)
  have hxlim : x < U32LIM := lt_of_lt_of_le hx hWle
  have h1 : subU32 x 1 = (x + (U32LIM - 1)) % U32LIM := by
    unfold subU32
    rw [Nat.mod_eq_of_lt hxlim]
    norm_num [U32LIM]
  rcases Nat.eq_zero_or_pos x with rfl | hxpos
  · -- x = 0: the u32 subtraction underflows to 2^32 - 1, then divisibility
    -- of 2^32 by W gives (2^32 - 1) % W = W - 1.
    obtain ⟨k, hk⟩ := Nat.dvd_of_mod_eq_zero hdvd
    have hkpos : 0 < k := by
      rcases Nat.eq_zero_or_pos k with rfl | h
      · rw [Nat.mul_zero] at hk; norm_num [U32LIM] at hk
      · exact h
    have hsub : subU32 0 1 = U32LIM - 1 := by
      rw [h1, Nat.zero_add, Nat.mod_eq_of_lt (by norm_num [U32LIM])]
    have hmulsub : W * (k - 1) = W * k - W := by
      rw [Nat.mul_sub, Nat.mul_one]
    have hsplit : U32LIM - 1 = W * (k - 1) + (W - 1) := by omega
    rw [hsub, hsplit, Nat.add_comm (W * (k - 1)), Nat.add_mul_mod_self_left,
      Nat.zero_add]
  · -- x ≥ 1: no effective underflow, both sides reduce to x - 1.
    have hsub : subU32 x 1 = x - 1 := by
      rw [h1]
      have hsum : x + (U32LIM - 1) = U32LIM + (x - 1) := by omega
      rw [hsum, Nat.add_mod_left, Nat.mod_eq_of_lt (by omega)]
    have hrhs : x + W - 1 = W + (x - 1) := by omega
    rw [hsub, hrhs, Nat.add_mod_left]

theorem addU32_pred_mod_self (N : Nat) (hN : 0 < N) (hle : N ≤ U32LIM) :
    addU32 (N - 1) 1 % N = 0 := by
  unfold addU32
  have h1 : N - 1 + 1 = N := by omega
  rw [h1]
  rcases Nat.lt_or_ge N U32LIM with h | h
  · rw [Nat.mod_eq_of_lt h, Nat.mod_self]
  · have : N = U32LIM := by omega
    rw [this, Nat.mod_self, Nat.zero_mod]

end GameOfLife

namespace GameOfLife

/-- C2 (amended): when the grid extents divide 2^32, every one of the eight
neighbour lookups of `simulate` reads the toroidally wrapped coordinate, so
the shader's neighbour count equals the mathematical toroidal count; and for
every extent N ≤ 2^32 (no divisibility needed), with a single live cell at
corner (0,0) of an N×N grid, the `x+1`/`y+1` lookups of cells (N-1,N-1),
(N-1,0) and (0,N-1) each read the live cell. The original claim's
quantification over *every* grid extent fails for the `x-1`/`y-1` lookups at
coordinate 0 (see `neighbor_wrap_counterexample`). -/
theorem neighbor_lookups_wrap :
    (∀ W H : Nat, ∀ buf : Nat → Nat, ∀ x y : Nat, x < W → y < H →
      U32LIM % W = 0 → U32LIM % H = 0 →
      aliveNeighbors W H buf x y = toroidalAliveNeighbors W H buf x y) ∧
    (∀ N : Nat, 0 < N → N ≤ U32LIM →
      cellState N N singleLive (addU32 (N - 1) 1) (addU32 (N - 1) 1) = 1 ∧
      cellState N N singleLive (addU32 (N - 1) 1) 0 = 1 ∧
      cellState N N singleLive 0 (addU32 (N - 1) 1) = 1) := by
  constructor
  · intro W H buf x y hx hy hW hH
    have hWle : W ≤ U32LIM := Nat.le_of_dvd (by norm_num [U32LIM]) (Nat.dvd_of_mod_eq_zero hW)
    have hHle : H ≤ U32LIM := Nat.le_of_dvd (by norm_num [U32LIM]) (Nat.dvd_of_mod_eq_zero hH)
    have hax : addU32 x 1 % W = wrapAdd1 x W % W := by
      rw [addU32_one_mod x W hx hWle]
      unfold wrapAdd1
      rw [Nat.mod_mod_of_dvd _ dvd_rfl]
    have hsx : subU32 x 1 % W = wrapSub1 x W % W := by
      rw [subU32_one_mod x W hx hW]
      unfold wrapSub1
      rw [Nat.mod_mod_of_dvd _ dvd_rfl]
    have hay : addU32 y 1 % H = wrapAdd1 y H % H := by
      rw [addU32_one_mod y H hy hHle]
      unfold wrapAdd1
      rw [Nat.mod_mod_of_dvd _ dvd_rfl]
    have hsy : subU32 y 1 % H = wrapSub1 y H % H := by
      rw [subU32_one_mod y H hy hH]
      unfold wrapSub1
      rw [Nat.mod_mod_of_dvd _ dvd_rfl]
    unfold aliveNeighbors toroidalAliveNeighbors cellState
    rw [cellIndex_congr W H (addU32 x 1) y (wrapAdd1 x W) y hax rfl,
      cellIndex_congr W H (subU32 x 1) y (wrapSub1 x W) y hsx rfl,
      cellIndex_congr W H x (addU32 y 1) x (wrapAdd1 y H) rfl hay,
      cellIndex_congr W H x (subU32 y 1) x (wrapSub1 y H) rfl hsy,
      cellIndex_congr W H (addU32 x 1) (addU32 y 1) (wrapAdd1 x W) (wrapAdd1 y H) hax hay,
      cellIndex_congr W H (subU32 x 1) (subU32 y 1) (wrapSub1 x W) (wrapSub1 y H) hsx hsy,
      cellIndex_congr W H (addU32 x 1) (subU32 y 1) (wrapAdd1 x W) (wrapSub1 y H) hax hsy,
      cellIndex_congr W H (subU32 x 1) (addU32 y 1) (wrapSub1 x W) (wrapAdd1 y H) hsx hay]
  · intro N hN hle
    have hmod := addU32_pred_mod_self N hN hle
    have hidx : ∀ a b : Nat, a % N = 0 → b % N = 0 → cellIndex N N a b = 0 := by
      intro a b ha hb
      unfold cellIndex
      rw [ha, hb]
      simp
    refine ⟨?_, ?_, ?_⟩
    · unfold cellState
      rw [hidx _ _ hmod hmod]
      rfl
    · unfold cellState
      rw [hidx _ _ hmod (Nat.zero_mod N)]
      rfl
    · unfold cellState
      rw [hidx _ _ (Nat.zero_mod N) hmod]
      rfl

/-- Counterexample for C2 as stated: on a 3×3 grid (extent 3 does not divide
2^32) with the single live cell at (2,0), the shader's neighbour count at
cell (0,0) is 0, while the toroidal wrap would count 1: the `x-1` lookup at
`x = 0` underflows to 2^32 - 1 and `(2^32 - 1) % 3 = 0`, not 2. -/
theorem neighbor_wrap_counterexample :
    aliveNeighbors 3 3 (fun i => if i = 2 then 1 else 0) 0 0 = 0 ∧
    toroidalAliveNeighbors 3 3 (fun i => if i = 2 then 1 else 0) 0 0 = 1 := by
  constructor <;> decide

/-- Witness for C2: both conjuncts applied at a 4×4 grid (4 divides 2^32). -/
theorem neighbor_lookups_wrap_witness :
    aliveNeighbors 4 4 singleLive 0 0 = toroidalAliveNeighbors 4 4 singleLive 0 0 ∧
    cellState 4 4 singleLive (addU32 3 1) 0 = 1 :=
  ⟨neighbor_lookups_wrap.1 4 4 singleLive 0 0 (by norm_num) (by norm_num)
      (by norm_num [U32LIM]) (by norm_num [U32LIM]),
    (neighbor_lookups_wrap.2 4 (by norm_num) (by norm_num [U32LIM])).2.1⟩

/-! ## Render instancing and cell-state buffer size (C3)

From `main.ts`: `pass.draw(6, this.grid_size * this.grid_size * 2)`; the
cell-state arrays have `grid_size * grid_size` entries; `vertexMain` reads
`states[input.instanceIndex]` and maps instance `i` to grid cell
`(i % grid.x, floor(i / grid.x))` (f32 arithmetic, exact at these
magnitudes, modelled on `Nat`). -/

def drawVertexCount : Nat := 6

def drawInstanceCount (grid_size : Nat) : Nat := grid_size * grid_size * 2

/-- Length of `cellStateArray` (and of each cell-state storage buffer). -/
def cellCount (grid_size : Nat) : Nat := grid_size * grid_size

/-- The index at which `vertexMain` reads the `states` buffer. -/
def vertexStateReadIndex (instanceIndex : Nat) : Nat := instanceIndex

/-- `vertexMain`'s instance-to-cell mapping `(i % grid.x, floor(i / grid.x))`. -/
def vertexCell (W i : Nat) : Nat × Nat := (i % W, i / W)

/-- C3: the render pass does NOT draw `width * height` instances: the draw
call requests `grid_size * grid_size * 2` instances, twice the cell count,
and every instance with index ≥ `grid_size * grid_size` reads the cell-state
buffer out of bounds. Evaluated at the program's configured grid size 256.
(The quad itself is 6 vertices = 2 triangles, and the instance-to-cell
mapping is `(i mod width, floor(i / width))`, as the claim states.) -/
theorem draw_instance_count_bug :
    drawInstanceCount 256 = 2 * cellCount 256 ∧
    drawInstanceCount 256 ≠ cellCount 256 ∧
    cellCount 256 ≤ vertexStateReadIndex (cellCount 256) ∧
    vertexStateReadIndex (cellCount 256) < drawInstanceCount 256 ∧
    drawVertexCount = 6 ∧
    vertexCell 256 257 = (1, 1) := by
  refine ⟨by norm_num [drawInstanceCount, cellCount], ?_, ?_, ?_, rfl, by norm_num [vertexCell]⟩
  · norm_num [drawInstanceCount, cellCount]
  · norm_num [cellCount, vertexStateReadIndex]
  · norm_num [drawInstanceCount, cellCount, vertexStateReadIndex]

/-! ## Compute dispatch size (C8)

From `main.ts`: `computePass.dispatchWorkgroups(this.grid_size / 8,
this.grid_size / 8, 1)`. JS evaluates `grid_size / 8` exactly; WebGPU's
`GPUSize32` conversion truncates the result toward zero, which on
nonnegative integers is `Nat` division. The shader declares
`@workgroup_size(8, 8, 1)`. -/

def dispatchCount (grid_size : Nat) : Nat := grid_size / 8

def dispatchDims (grid_size : Nat) : Nat × Nat × Nat :=
  (dispatchCount grid_size, dispatchCount grid_size, 1)

def workgroupSize : Nat × Nat × Nat := (8, 8, 1)

/-- Cells covered along one grid axis by the dispatched workgroups. -/
def coveredExtent (grid_size : Nat) : Nat := 8 * dispatchCount grid_size

/-- `ceil(n / 8)`, the workgroup count the claim asserts. -/
def ceilDiv8 (n : Nat) : Nat := (n + 7) / 8

/-- C8 (amended): when the grid side length is a positive multiple of 8, the
compute pass dispatches exactly `ceil(gs/8) × ceil(gs/8) × 1` workgroups of
size 8×8×1 and every cell coordinate is covered. For side lengths not
divisible by 8 the code dispatches `floor(gs/8)` per axis, not `ceil(gs/8)`
(see `dispatch_count_counterexample`), leaving edge cells uncomputed. -/
theorem dispatch_covers_grid_when_divisible (gs : Nat) (h8 : gs % 8 = 0) :
    dispatchDims gs = (ceilDiv8 gs, ceilDiv8 gs, 1) ∧
    workgroupSize = (8, 8, 1) ∧
    ∀ x, x < gs → x < coveredExtent gs := by
  have hceil : gs / 8 = (gs + 7) / 8 := by omega
  refine ⟨?_, rfl, ?_⟩
  · unfold dispatchDims dispatchCount ceilDiv8
    rw [hceil]
  · intro x hx
    unfold coveredExtent dispatchCount
    omega

/-- Counterexample for C8 as stated: at grid side 10 the code dispatches 1
workgroup per axis, while `ceil(10/8) = 2`. -/
theorem dispatch_count_counterexample :
    dispatchCount 10 = 1 ∧ ceilDiv8 10 = 2 ∧ dispatchCount 10 ≠ ceilDiv8 10 := by
  refine ⟨rfl, rfl, by norm_num [dispatchCount, ceilDiv8]⟩

/-- Witness for C8: the amended theorem applied at grid side 16. -/
theorem dispatch_covers_grid_witness :
    dispatchDims 16 = (ceilDiv8 16, ceilDiv8 16, 1) ∧
    workgroupSize = (8, 8, 1) ∧
    5 < coveredExtent 16 :=
  ⟨(dispatch_covers_grid_when_divisible 16 (by norm_num)).1,
    (dispatch_covers_grid_when_divisible 16 (by norm_num)).2.1,
    (dispatch_covers_grid_when_divisible 16 (by norm_num)).2.2 5 (by norm_num)⟩

/-! ## Bind groups and the ping-pong buffer pair (C4, C5)

From `main.ts` setup(): `cellStateStorage` holds two distinct buffers;
`bindGroups[0]` binds storage[0] at binding 2 (the shader's read-only
`cellStateIn`) and storage[1] at binding 3 (the writable `cellStateOut`);
`bindGroups[1]` binds them the other way round. -/

inductive PhysBuf where
  | storage0 : PhysBuf
  | storage1 : PhysBuf
deriving DecidableEq

/-- The buffer bound at binding 2 (read source) of `bindGroups[i]`. -/
def bindGroupRead (i : Nat) : PhysBuf :=
  if i = 0 then PhysBuf.storage0 else PhysBuf.storage1

/-- The buffer bound at binding 3 (write target) of `bindGroups[i]`. -/
def bindGroupWrite (i : Nat) : PhysBuf :=
  if i = 0 then PhysBuf.storage1 else PhysBuf.storage0

/-- Contents of the two physical cell-state buffers. -/
structure BufferPair where
  storage0 : Nat → Nat
  storage1 : Nat → Nat

/-- The contents of `cellStateOut` after the dispatched compute pass:
invocation `(x, y)` with `x, y < 8 * (gs / 8)` stores `simulateCell` at
`cellIndex gs gs x y = (y % gs) * gs + (x % gs) = y * gs + x` (no wrap, as
`x, y < gs`), so flat index `i` is written exactly when its unique
decomposition `x = i % gs`, `y = i / gs` lies inside the covered extent;
every other index keeps the previous contents `old`. -/
def computePassOutput (gs : Nat) (input old : Nat → Nat) : Nat → Nat :=
  fun i =>
    if i % gs < coveredExtent gs ∧ i / gs < coveredExtent gs then
      simulateCell gs gs input (i % gs) (i / gs)
    else old i

/-- Effect of one tick's compute pass on the buffer pair when bind group
`sel` is set: the shader reads `cellStateIn` (= `bindGroupRead sel`) and
assigns only `cellStateOut` (= `bindGroupWrite sel`). -/
def runComputePass (gs sel : Nat) (s : BufferPair) : BufferPair :=
  if sel = 0 then
    { s with storage1 := computePassOutput gs s.storage0 s.storage1 }
  else
    { s with storage0 := computePassOutput gs s.storage1 s.storage0 }

/-- C4: the update never reads and writes the same physical buffer — each
bind group binds two distinct buffers at bindings 2 and 3 — the compute pass
leaves the contents of its input (current) buffer unchanged, and on a grid
whose side is a multiple of 8 it overwrites every cell of the output buffer
(the output is independent of the target's previous contents). -/
theorem update_preserves_input_buffer :
    (∀ i : Nat, bindGroupRead i ≠ bindGroupWrite i) ∧
    (∀ gs sel : Nat, ∀ s : BufferPair,
      (sel = 0 → (runComputePass gs sel s).storage0 = s.storage0) ∧
      (sel ≠ 0 → (runComputePass gs sel s).storage1 = s.storage1)) ∧
    (∀ gs : Nat, gs % 8 = 0 → ∀ input old old' : Nat → Nat, ∀ i : Nat,
      i < cellCount gs →
      computePassOutput gs input old i = computePassOutput gs input old' i) := by
  refine ⟨?_, ?_, ?_⟩
  · intro i
    unfold bindGroupRead bindGroupWrite
    split_ifs <;> simp
  · intro gs sel s
    constructor
    · intro h
      unfold runComputePass
      rw [if_pos h]
    · intro h
      unfold runComputePass
      rw [if_neg h]
  · intro gs h8 input old old' i hi
    unfold cellCount at hi
    have hgs : 0 < gs := by
      rcases Nat.eq_zero_or_pos gs with rfl | h
      · omega
      · exact h
    have hcov : coveredExtent gs = gs := by
      unfold coveredExtent dispatchCount
      omega
    have h1 : i % gs < coveredExtent gs := by
      rw [hcov]
      exact Nat.mod_lt _ hgs
    have h2 : i / gs < coveredExtent gs := by
      rw [hcov]
      exact Nat.div_lt_of_lt_mul hi
    unfold computePassOutput
    rw [if_pos ⟨h1, h2⟩, if_pos ⟨h1, h2⟩]

/-- Witness for C4: grid side 8, concrete buffers. -/
theorem update_preserves_input_buffer_witness :
    bindGroupRead 0 ≠ bindGroupWrite 0 ∧
    (runComputePass 8 0 ⟨singleLive, singleLive⟩).storage0 = singleLive ∧
    computePassOutput 8 singleLive singleLive 5 =
      computePassOutput 8 singleLive (fun _ => 7) 5 :=
  ⟨update_preserves_input_buffer.1 0,
    (update_preserves_input_buffer.2.1 8 0 ⟨singleLive, singleLive⟩).1 rfl,
    update_preserves_input_buffer.2.2 8 (by norm_num) singleLive singleLive
      (fun _ => 7) 5 (by norm_num [cellCount])⟩

/-! ## Buffer-pair selection (C5)

From `main.ts` render():
`let bindGroup = this.bindGroups[Math.floor(this.step % 2)];`
JS `number` arithmetic is modelled exactly on `ℚ`; the JS `%` operator
rounds the quotient toward zero (sign of the dividend). -/

/-- JS truncation toward zero. -/
def jsTrunc (x : ℚ) : ℤ := if 0 ≤ x then ⌊x⌋ else ⌈x⌉

/-- The JS remainder `a % b`. -/
def jsMod (a b : ℚ) : ℚ := a - b * (jsTrunc (a / b) : ℚ)

/-- `Math.floor(this.step % 2)`: the index into `bindGroups` used by both
the render pass and the compute pass of a tick. -/
def bindGroupIndex (step : ℚ) : ℤ := ⌊jsMod step 2⌋

/-- C5: for every nonnegative accumulated step value, the code's selection
index `floor(step % 2)` equals `floor(step) mod 2`; parity 0 selects
storage buffer 0 as read source and storage buffer 1 as write target,
parity 1 selects the reverse. -/
theorem bind_group_index_parity (step : ℚ) (h : 0 ≤ step) :
    bindGroupIndex step = ⌊step⌋ % 2 ∧
    (⌊step⌋ % 2 = 0 →
      bindGroupRead (bindGroupIndex step).toNat = PhysBuf.storage0 ∧
      bindGroupWrite (bindGroupIndex step).toNat = PhysBuf.storage1) ∧
    (⌊step⌋ % 2 = 1 →
      bindGroupRead (bindGroupIndex step).toNat = PhysBuf.storage1 ∧
      bindGroupWrite (bindGroupIndex step).toNat = PhysBuf.storage0) := by
  have htr : jsTrunc (step / 2) = ⌊step / 2⌋ := by
    unfold jsTrunc
    rw [if_pos (div_nonneg h (by norm_num))]
  have hmod : jsMod step 2 = step - ((2 * ⌊step / 2⌋ : ℤ) : ℚ) := by
    unfold jsMod
    rw [htr]
    push_cast
    ring
  have hfl : ⌊jsMod step 2⌋ = ⌊step⌋ - 2 * ⌊step / 2⌋ := by
    rw [hmod, Int.floor_sub_int]
  have hlow : ((⌊step / 2⌋ : ℚ)) ≤ step / 2 := Int.floor_le _
  have hhigh : step / 2 < ⌊step / 2⌋ + 1 := Int.lt_floor_add_one _
  have h1 : (2 * ⌊step / 2⌋ : ℤ) ≤ ⌊step⌋ := by
    rw [Int.le_floor]
    push_cast
    linarith
  have h2 : ⌊step⌋ < 2 * ⌊step / 2⌋ + 2 := by
    rw [Int.floor_lt]
    push_cast
    linarith
  have hmain : bindGroupIndex step = ⌊step⌋ % 2 := by
    unfold bindGroupIndex
    rw [hfl]
    omega
  refine ⟨hmain, ?_, ?_⟩
  · intro hp
    rw [hmain, hp]
    exact ⟨rfl, rfl⟩
  · intro hp
    rw [hmain, hp]
    exact ⟨rfl, rfl⟩

/-- Witness for C5: step = 5/2, an accumulated value of even integer part. -/
theorem bind_group_index_parity_witness :
    bindGroupIndex (5 / 2 : ℚ) = ⌊(5 / 2 : ℚ)⌋ % 2 ∧
    bindGroupRead (bindGroupIndex (5 / 2 : ℚ)).toNat = PhysBuf.storage0 :=
  ⟨(bind_group_index_parity (5 / 2 : ℚ) (by norm_num)).1,
    ((bind_group_index_parity (5 / 2 : ℚ) (by norm_num)).2.1 (by norm_num)).1⟩

/-! ## HSL → RGB conversion and the colour gradient (C6, C7)

From `main.ts`. `hueToRgb` mutates `t` by two sequential range checks and
then branches; the mutation is split off as `hueShift1`/`hueShift`.
`hslToRgb`'s local `q` and `p` are split off as `hslQ`/`hslP`. JS `number`
arithmetic is modelled exactly on `ℚ` (the claims' content is about the
exact arithmetic; the source decimals 0.2, 0.4, 0.6, 0.8, 0.5 are the
rationals 1/5, 2/5, 3/5, 4/5, 1/2). -/

/-- `if (t < 0) t += 1;` -/
def hueShift1 (t : ℚ) : ℚ := if t < 0 then t + 1 else t

/-- ...then `if (t > 1) t -= 1;` -/
def hueShift (t : ℚ) : ℚ :=
  if hueShift1 t > 1 then hueShift1 t - 1 else hueShift1 t

/-- `hueToRgb(p, q, t)` after the two range adjustments. -/
def hueToRgb (p q t : ℚ) : ℚ :=
  if hueShift t < 1 / 6 then p + (q - p) * 6 * hueShift t
  else if hueShift t < 1 / 2 then q
  else if hueShift t < 2 / 3 then p + (q - p) * (2 / 3 - hueShift t) * 6
  else p

/-- `hslToRgb`'s local `q`. -/
def hslQ (s l : ℚ) : ℚ := if l < 1 / 2 then l * (1 + s) else l + s - l * s

/-- `hslToRgb`'s local `p`. -/
def hslP (s l : ℚ) : ℚ := 2 * l - hslQ s l

/-- `hslToRgb(h, s, l)` returning `(r, g, b)`. -/
def hslToRgb (h s l : ℚ) : ℚ × ℚ × ℚ :=
  if s = 0 then (l, l, l)
  else
    (hueToRgb (hslP s l) (hslQ s l) (h + 1 / 3),
      hueToRgb (hslP s l) (hslQ s l) h,
      hueToRgb (hslP s l) (hslQ s l) (h - 1 / 3))

/-- `let offset = (this.time % (1/this.disco_speed)) * this.disco_speed;` -/
def gradientOffset (time disco : ℚ) : ℚ := jsMod time (1 / disco) * disco

/-- One RGBA colour as packed into the colour uniform buffer. -/
structure Rgba where
  r : ℚ
  g : ℚ
  b : ℚ
  a : ℚ

/-- The corner colour for one of the four phase offsets: `render()` computes
`hslToRgb(offset + phase, 0.5, 0.5)` and packs it with alpha 1. -/
def cornerColor (time disco phase : ℚ) : Rgba :=
  ⟨(hslToRgb (gradientOffset time disco + phase) (1 / 2) (1 / 2)).1,
    (hslToRgb (gradientOffset time disco + phase) (1 / 2) (1 / 2)).2.1,
    (hslToRgb (gradientOffset time disco + phase) (1 / 2) (1 / 2)).2.2,
    1⟩

/-- `x mod 1` in the mathematical sense, used to state hue periodicity. -/
def fractQ (x : ℚ) : ℚ := x - ⌊x⌋

theorem gradientOffset_eq (time disco : ℚ) (ht : 0 ≤ time) (hd : 0 < disco) :
    gradientOffset time disco = time * disco - ⌊time * disco⌋ := by
  unfold gradientOffset jsMod jsTrunc
  have hdiv : time / (1 / disco) = time * disco := by
    field_simp
  rw [hdiv, if_pos (mul_nonneg ht hd.le)]
  field_simp

theorem gradientOffset_bounds (time disco : ℚ) (ht : 0 ≤ time) (hd : 0 < disco) :
    0 ≤ gradientOffset time disco ∧ gradientOffset time disco < 1 := by
  rw [gradientOffset_eq time disco ht hd]
  constructor
  · have := Int.floor_le (time * disco)
    linarith
  · have := Int.lt_floor_add_one (time * disco)
    push_cast at this ⊢
    linarith

theorem hueShift_nonneg (t : ℚ) (h : -1 ≤ t) : 0 ≤ hueShift t := by
  unfold hueShift hueShift1
  split_ifs <;> linarith

theorem hueToRgb_bounds (t : ℚ) (h : -1 ≤ t) :
    1 / 4 ≤ hueToRgb (1 / 4) (3 / 4) t ∧ hueToRgb (1 / 4) (3 / 4) t ≤ 3 / 4 := by
  have h0 := hueShift_nonneg t h
  unfold hueToRgb
  split_ifs <;> constructor <;> linarith

theorem hslP_half : hslP (1 / 2) (1 / 2) = 1 / 4 := by
  norm_num [hslP, hslQ]

theorem hslQ_half : hslQ (1 / 2) (1 / 2) = 3 / 4 := by
  norm_num [hslQ]

end GameOfLife

namespace GameOfLife

/-- C6 (amended): for every nonnegative time and every positive discoSpeed,
each RGB channel of every corner colour lies in [0,1] (in fact in
[1/4, 3/4]) and the alpha channel is exactly 1. For negative time the JS
remainder makes the offset negative and a channel can leave [0,1]
(see `corner_color_counterexample`). -/
theorem corner_color_channels_bounded (time disco phase : ℚ)
    (ht : 0 ≤ time) (hd : 0 < disco)
    (hph : phase = 1 / 5 ∨ phase = 2 / 5 ∨ phase = 3 / 5 ∨ phase = 4 / 5) :
    (0 ≤ (cornerColor time disco phase).r ∧ (cornerColor time disco phase).r ≤ 1) ∧
    (0 ≤ (cornerColor time disco phase).g ∧ (cornerColor time disco phase).g ≤ 1) ∧
    (0 ≤ (cornerColor time disco phase).b ∧ (cornerColor time disco phase).b ≤ 1) ∧
    (cornerColor time disco phase).a = 1 := by
  obtain ⟨hoff0, hoff1⟩ := gradientOffset_bounds time disco ht hd
  have hpl : 1 / 5 ≤ phase := by
    rcases hph with rfl | rfl | rfl | rfl <;> norm_num
  have hpu : phase ≤ 4 / 5 := by
    rcases hph with rfl | rfl | rfl | rfl <;> norm_num
  unfold cornerColor hslToRgb
  rw [if_neg (by norm_num), hslP_half, hslQ_half]
  have hr := hueToRgb_bounds (gradientOffset time disco + phase + 1 / 3) (by linarith)
  have hg := hueToRgb_bounds (gradientOffset time disco + phase) (by linarith)
  have hb := hueToRgb_bounds (gradientOffset time disco + phase - 1 / 3) (by linarith)
  exact ⟨⟨by linarith [hr.1], by linarith [hr.2]⟩,
    ⟨by linarith [hg.1], by linarith [hg.2]⟩,
    ⟨by linarith [hb.1], by linarith [hb.2]⟩, rfl⟩

/-- Counterexample for C6 as stated: at time −48/25 (a negative real input)
with discoSpeed 1/2, the blue channel of the first corner colour is
−3/100 < 0: the JS remainder of a negative dividend is negative, so the
offset is −24/25 and the conversion's single `t += 1` does not bring
`t = −82/75` back into range. -/
theorem corner_color_counterexample :
    (cornerColor (-48 / 25) (1 / 2) (1 / 5)).b < 0 := by
  have hceil : ⌈(-(24 / 25) : ℚ)⌉ = 0 := by
    rw [Int.ceil_eq_iff]
    norm_num
  norm_num [cornerColor, hslToRgb, hueToRgb, hueShift, hueShift1, hslP, hslQ,
    gradientOffset, jsMod, jsTrunc, hceil]

/-- Witness for C6: time 0, discoSpeed 1/2, first phase. -/
theorem corner_color_channels_bounded_witness :
    0 ≤ (cornerColor 0 (1 / 2) (1 / 5)).r ∧ (cornerColor 0 (1 / 2) (1 / 5)).a = 1 :=
  ⟨((corner_color_channels_bounded 0 (1 / 2) (1 / 5) (by norm_num) (by norm_num)
      (Or.inl rfl)).1).1,
    (corner_color_channels_bounded 0 (1 / 2) (1 / 5) (by norm_num) (by norm_num)
      (Or.inl rfl)).2.2.2⟩

theorem hueToRgb_sub_one (p q t : ℚ) (h0 : 0 ≤ t) (h2 : t ≤ 2) :
    hueToRgb p q t = hueToRgb p q (t - 1) := by
  rcases eq_or_ne t 1 with rfl | hne
  · unfold hueToRgb hueShift hueShift1
    norm_num
  · have hsh : hueShift t = hueShift (t - 1) := by
      unfold hueShift hueShift1
      split_ifs <;>
        first
          | linarith
          | (exfalso; exact hne (by linarith))
    unfold hueToRgb
    rw [hsh]

/-- C7 (amended): for every hue the gradient produces — h = offset + phase,
offset ∈ [0,1), phase ∈ {1/5, 2/5, 3/5, 4/5} — with h ≤ 5/3, the conversion
is periodic mod 1: `hslToRgb h 1/2 1/2 = hslToRgb (h mod 1) 1/2 1/2` in
every channel. For h ∈ (5/3, 9/5) the red channel differs (the conversion's
single `t -= 1` cannot normalise `t = h + 1/3 > 2`), so the original claim,
quantified over all produced hues, fails (see
`hsl_periodicity_counterexample`). -/
theorem hsl_periodic_mod_one (off phase : ℚ) (h0 : 0 ≤ off) (h1 : off < 1)
    (hph : phase = 1 / 5 ∨ phase = 2 / 5 ∨ phase = 3 / 5 ∨ phase = 4 / 5)
    (hle : off + phase ≤ 5 / 3) :
    hslToRgb (off + phase) (1 / 2) (1 / 2) =
      hslToRgb (fractQ (off + phase)) (1 / 2) (1 / 2) := by
  have hpl : 1 / 5 ≤ phase := by
    rcases hph with rfl | rfl | rfl | rfl <;> norm_num
  have hpu : phase ≤ 4 / 5 := by
    rcases hph with rfl | rfl | rfl | rfl <;> norm_num
  rcases lt_or_le (off + phase) 1 with hlt | hge
  · have hfr : fractQ (off + phase) = off + phase := by
      unfold fractQ
      have : ⌊off + phase⌋ = 0 := by
        rw [Int.floor_eq_iff]
        push_cast
        constructor <;> linarith
      rw [this]
      push_cast
      ring
    rw [hfr]
  · have hfr : fractQ (off + phase) = off + phase - 1 := by
      unfold fractQ
      have : ⌊off + phase⌋ = 1 := by
        rw [Int.floor_eq_iff]
        push_cast
        constructor <;> linarith
      rw [this]
      push_cast
      ring
    rw [hfr]
    unfold hslToRgb
    have hs : ¬((1 : ℚ) / 2 = 0) := by norm_num
    rw [if_neg hs, if_neg hs]
    simp only [Prod.mk.injEq]
    refine ⟨?_, ?_, ?_⟩
    · have e1 : off + phase - 1 + 1 / 3 = off + phase + 1 / 3 - 1 := by ring
      rw [e1]
      exact hueToRgb_sub_one _ _ _ (by linarith) (by linarith)
    · exact hueToRgb_sub_one _ _ _ (by linarith) (by linarith)
    · have e1 : off + phase - 1 - 1 / 3 = off + phase - 1 / 3 - 1 := by ring
      rw [e1]
      exact hueToRgb_sub_one _ _ _ (by linarith) (by linarith)

/-- Counterexample for C7 as stated: the produced hue h = 9/10 + 4/5 = 17/10
(offset 9/10, phase 4/5) has red channel 1/4, but at h mod 1 = 7/10 the red
channel is 7/20. -/
theorem hsl_periodicity_counterexample :
    (hslToRgb (9 / 10 + 4 / 5) (1 / 2) (1 / 2)).1 ≠
      (hslToRgb (fractQ (9 / 10 + 4 / 5)) (1 / 2) (1 / 2)).1 := by
  norm_num [hslToRgb, hueToRgb, hueShift, hueShift1, hslP, hslQ, fractQ]

/-- Witness for C7: offset 1/10, phase 2/5. -/
theorem hsl_periodic_mod_one_witness :
    hslToRgb (1 / 10 + 2 / 5) (1 / 2) (1 / 2) =
      hslToRgb (fractQ (1 / 10 + 2 / 5)) (1 / 2) (1 / 2) :=
  hsl_periodic_mod_one (1 / 10) (2 / 5) (by norm_num) (by norm_num)
    (Or.inr (Or.inl rfl)) (by norm_num)

/-! ## Fragment shader (C9), from cell.wgsl

```
let factor = input.cell / grid;
let left = colors[0] * (1 - factor.x) + colors[1] * factor.x;
let right = colors[2] * (1 - factor.x) + colors[3] * factor.x;
return left * (1 - factor.y) + right * factor.y;
```
`vec4f` is modelled componentwise over `ℚ`. -/

structure Vec4 where
  x : ℚ
  y : ℚ
  z : ℚ
  w : ℚ

/-- Componentwise `vec4f` addition. -/
def v4add (a b : Vec4) : Vec4 := ⟨a.x + b.x, a.y + b.y, a.z + b.z, a.w + b.w⟩

/-- `vec4f * f32` scaling, operand order as in the shader. -/
def v4smul (a : Vec4) (c : ℚ) : Vec4 := ⟨a.x * c, a.y * c, a.z * c, a.w * c⟩

/-- The shader's `left` (and, applied to `colors[2], colors[3]`, its
`right`): `ca * (1 - fx) + cb * fx`. -/
def fragBlendX (ca cb : Vec4) (fx : ℚ) : Vec4 :=
  v4add (v4smul ca (1 - fx)) (v4smul cb fx)

/-- `fragmentMain` for a fragment whose interpolated `cell` input is
`(cx, cy)` on a `W × H` grid: `factor = cell / grid`, blend `colors[0..1]`
and `colors[2..3]` along x, then blend the two results along y. -/
def fragmentMain (W H : ℚ) (c0 c1 c2 c3 : Vec4) (cx cy : ℚ) : Vec4 :=
  v4add (v4smul (fragBlendX c0 c1 (cx / W)) (1 - cy / H))
    (v4smul (fragBlendX c2 c3 (cx / W)) (cy / H))

/-- Modelled from the spec: linear interpolation `lerp(a, b, t) = a + (b - a) * t`,
componentwise. -/
def lerp (a b : Vec4) (t : ℚ) : Vec4 :=
  ⟨a.x + (b.x - a.x) * t, a.y + (b.y - a.y) * t,
    a.z + (b.z - a.z) * t, a.w + (b.w - a.w) * t⟩

/-- Modelled from the spec: bilinear interpolation of the four corner
colours with factors `fx = x/width`, `fy = y/height`: first
`lerp(c0, c1, fx)` and `lerp(c2, c3, fx)`, then the lerp of those two
results by `fy`. -/
def specBilinear (W H : ℚ) (c0 c1 c2 c3 : Vec4) (cx cy : ℚ) : Vec4 :=
  lerp (lerp c0 c1 (cx / W)) (lerp c2 c3 (cx / W)) (cy / H)

/-- C9: for every cell coordinate and every four corner colours, the
fragment shader's colour equals the spec's bilinear interpolation with
factors `x/width` and `y/height`: lerp `colors[0],colors[1]` and
`colors[2],colors[3]` along x, then lerp the two results along y. -/
theorem fragment_is_bilinear (W H : ℚ) (c0 c1 c2 c3 : Vec4) (cx cy : ℚ) :
    fragmentMain W H c0 c1 c2 c3 cx cy = specBilinear W H c0 c1 c2 c3 cx cy := by
  unfold fragmentMain specBilinear fragBlendX lerp v4add v4smul
  simp only [Vec4.mk.injEq]
  refine ⟨?_, ?_, ?_, ?_⟩ <;> ring

/-! ## The driver's clock (C10), from main.ts

`tick()` is exactly the two accumulator updates; `render()` recomputes the
colour buffer from `time` and submits the render and compute passes, never
touching `time` or `step`. The full driver state is modelled with its
numeric fields on `ℚ` and the GPU-resident data as `BufferPair`/colour
tuple; `u32(grid.x)` of a nonnegative size is `⌊grid_size⌋.toNat`. -/

structure GameState where
  time : ℚ
  step : ℚ
  grid_size : ℚ
  disco_speed : ℚ
  sim_speed : ℚ
  buffers : BufferPair
  colorBuf : Rgba × Rgba × Rgba × Rgba

/-- `new GameOfLife(grid_size, disco_speed, sim_speed)` plus `setup()` with
seed state written to both storage buffers; the colour buffer starts
zeroed (WebGPU zero-initialises buffers) and is overwritten by every
`render()`. -/
def mkGameOfLife (gs disco sim : ℚ) (seed : Nat → Nat) : GameState :=
  { time := 0, step := 0, grid_size := gs, disco_speed := disco, sim_speed := sim,
    buffers := ⟨seed, seed⟩,
    colorBuf := (⟨0, 0, 0, 0⟩, ⟨0, 0, 0, 0⟩, ⟨0, 0, 0, 0⟩, ⟨0, 0, 0, 0⟩) }

/-- `tick()`: `let delta = 1/60; this.time += delta; this.step += delta * this.sim_speed;` -/
def tick (s : GameState) : GameState :=
  { s with time := s.time + 1 / 60, step := s.step + 1 / 60 * s.sim_speed }

/-- `render()`: write the four corner colours into the colour buffer, then
submit the render pass and the compute pass with the bind group selected by
`Math.floor(step % 2)`. -/
def render (s : GameState) : GameState :=
  { s with
    colorBuf :=
      (cornerColor s.time s.disco_speed (1 / 5), cornerColor s.time s.disco_speed (2 / 5),
        cornerColor s.time s.disco_speed (3 / 5), cornerColor s.time s.disco_speed (4 / 5)),
    buffers := runComputePass (⌊s.grid_size⌋.toNat) (bindGroupIndex s.step).toNat s.buffers }

/-- One external caller step: the driver interleaves `tick()` and `render()`. -/
inductive Op where
  | tick : Op
  | render : Op

def applyOp (s : GameState) : Op → GameState
  | Op.tick => tick s
  | Op.render => render s

def applyOps (s : GameState) : List Op → GameState
  | [] => s
  | o :: rest => applyOps (applyOp s o) rest

end GameOfLife

namespace GameOfLife

/-- C10: `tick()` changes exactly the two clock accumulators — `time` by
1/60 and `step` by `sim_speed/60` — leaving `grid_size`, `disco_speed`,
`sim_speed` and the buffer contents unchanged; `render()` changes neither
`time` nor `step`; hence along every interleaving of `tick()` and
`render()` calls both accumulators are nondecreasing (for the nondecreasing
part `sim_speed` must be nonnegative, as it is for the program's
configuration `sim_speed = 60`). -/
theorem tick_render_clock_effects :
    (∀ s : GameState,
      (tick s).time = s.time + 1 / 60 ∧
      (tick s).step = s.step + s.sim_speed / 60 ∧
      (tick s).grid_size = s.grid_size ∧
      (tick s).disco_speed = s.disco_speed ∧
      (tick s).sim_speed = s.sim_speed ∧
      (tick s).buffers = s.buffers ∧
      (tick s).colorBuf = s.colorBuf) ∧
    (∀ s : GameState, (render s).time = s.time ∧ (render s).step = s.step) ∧
    (∀ s : GameState, 0 ≤ s.sim_speed → ∀ ops : List Op,
      s.time ≤ (applyOps s ops).time ∧ s.step ≤ (applyOps s ops).step) := by
  refine ⟨?_, ?_, ?_⟩
  · intro s
    refine ⟨rfl, ?_, rfl, rfl, rfl, rfl, rfl⟩
    show s.step + 1 / 60 * s.sim_speed = s.step + s.sim_speed / 60
    ring
  · intro s
    exact ⟨rfl, rfl⟩
  · intro s hs ops
    induction ops generalizing s with
    | nil => exact ⟨le_refl _, le_refl _⟩
    | cons o rest ih =>
      have hpres : (applyOp s o).sim_speed = s.sim_speed := by
        cases o <;> rfl
      have hone : s.time ≤ (applyOp s o).time ∧ s.step ≤ (applyOp s o).step := by
        cases o
        · constructor
          · show s.time ≤ s.time + 1 / 60
            linarith
          · show s.step ≤ s.step + 1 / 60 * s.sim_speed
            linarith
        · exact ⟨le_refl _, le_refl _⟩
      have hrest := ih (applyOp s o) (by rw [hpres]; exact hs)
      exact ⟨le_trans hone.1 hrest.1, le_trans hone.2 hrest.2⟩

/-- Witness for C10: the program's configuration `GameOfLife(256, 0.5, 60)`
with a tick followed by a render. -/
theorem tick_render_clock_effects_witness :
    (tick (mkGameOfLife 256 (1 / 2) 60 singleLive)).time =
      (mkGameOfLife 256 (1 / 2) 60 singleLive).time + 1 / 60 ∧
    (render (mkGameOfLife 256 (1 / 2) 60 singleLive)).step =
      (mkGameOfLife 256 (1 / 2) 60 singleLive).step ∧
    (mkGameOfLife 256 (1 / 2) 60 singleLive).step ≤
      (applyOps (mkGameOfLife 256 (1 / 2) 60 singleLive) [Op.tick, Op.render]).step :=
  ⟨(tick_render_clock_effects.1 (mkGameOfLife 256 (1 / 2) 60 singleLive)).1,
    (tick_render_clock_effects.2.1 (mkGameOfLife 256 (1 / 2) 60 singleLive)).2,
    (tick_render_clock_effects.2.2 (mkGameOfLife 256 (1 / 2) 60 singleLive)
      (by norm_num [mkGameOfLife]) [Op.tick, Op.render]).2⟩

end GameOfLife
